import Mathlib

/-!
Verification of the axon session-controller core against its specification.

The definitions below are a shallow embedding of the Python sources under
`src/axon`: message-history maintenance (`messages.py`), the confirmation
gate (`core/agent.py`, `commands/yolo.py`), the MCP tool-call confirmation
wrapper (`mcp/servers.py`), the MCP server lifecycle (`mcp/agent.py`),
usage accounting (`core/usage.py`, `core/constants.py`) and the `/model`
command handler (`commands/model.py`).
-/

namespace Axon

/-! ## Message data model (pydantic_ai message parts, as used by `messages.py`) -/

/-- Parts that may occur in a `ModelResponse` (pydantic_ai): plain text or a
tool call.  `part_kind` of a tool call is `"tool-call"`. -/
inductive ResponsePart where
  | text (content : String)
  | toolCall (toolName : String) (toolCallId : String)
deriving DecidableEq, Repr

/-- Parts that may occur in a `ModelRequest` (pydantic_ai): a user prompt, a
tool return, or a retry prompt. -/
inductive RequestPart where
  | userPrompt (content : String)
  | toolReturn (toolName : String) (toolCallId : String) (content : String)
  | retryPrompt (content : String)
deriving DecidableEq, Repr

/-- A history entry: `ModelRequest` (`kind = "request"`) or `ModelResponse`
(`kind = "response"`). -/
inductive Message where
  | request (parts : List RequestPart)
  | response (parts : List ResponsePart)
deriving DecidableEq, Repr

/-- Whether a response part has `part_kind == "tool-call"`. -/
def isToolCall : ResponsePart → Bool
  | .toolCall _ _ => true
  | _ => false

/-- The ids of the `ToolReturnPart`s carried by a message (requests only;
responses carry no tool returns). -/
def toolReturnIds : Message → List String
  | .request ps => ps.filterMap fun p =>
      match p with
      | .toolReturn _ i _ => some i
      | _ => none
  | .response _ => []

/-! ## MessageHistory (`src/axon/messages.py`) -/

/-- `MessageHistory`: the ordered entry list `_messages` plus the optional
`_project_guide`. -/
structure MessageHistory where
  messages : List Message
  projectGuide : Option String
deriving DecidableEq, Repr

/-- `MessageHistory.add_request`: append a request entry. -/
def MessageHistory.add_request (h : MessageHistory) (parts : List RequestPart) : MessageHistory :=
  { h with messages := h.messages ++ [Message.request parts] }

/-- `MessageHistory.add_response`: append a response entry. -/
def MessageHistory.add_response (h : MessageHistory) (parts : List ResponsePart) : MessageHistory :=
  { h with messages := h.messages ++ [Message.response parts] }

/-- The literal content of the cancellation note appended by
`add_cancellation_note`. -/
def cancellationNote : String := "Previous request cancelled by user"

/-- `MessageHistory.add_cancellation_note`: append a user-prompt request
stating the previous request was cancelled. -/
def MessageHistory.add_cancellation_note (h : MessageHistory) : MessageHistory :=
  h.add_request [RequestPart.userPrompt cancellationNote]

/-- The `for part in reversed(last_message.parts)` scan of `patch_on_error`:
the last part with `part_kind == "tool-call"`, as `(tool_name, tool_call_id)`. -/
def lastToolCall : List ResponsePart → Option (String × String)
  | [] => none
  | p :: rest =>
    match lastToolCall rest with
    | some tc => some tc
    | none =>
      match p with
      | .toolCall n i => some (n, i)
      | _ => none

/-- `MessageHistory.patch_on_error`: if the last entry is a response whose
parts, scanned in reverse, contain a tool call, append a request holding a
synthetic `ToolReturnPart` carrying the error message for that call;
otherwise leave the history unchanged. -/
def MessageHistory.patch_on_error (h : MessageHistory) (errorMessage : String) : MessageHistory :=
  match h.messages.getLast? with
  | some (Message.response parts) =>
    match lastToolCall parts with
    | some (n, i) => h.add_request [RequestPart.toolReturn n i errorMessage]
    | none => h
  | _ => h

/-- `MessageHistory.clear`: truncate the entries, keep the project guide. -/
def MessageHistory.clear (h : MessageHistory) : MessageHistory :=
  { h with messages := [] }

/-- `MessageHistory.get_messages_for_agent`: a copy of the entries with the
project guide, when set, prepended as a leading synthetic request. -/
def MessageHistory.get_messages_for_agent (h : MessageHistory) : List Message :=
  match h.projectGuide with
  | some g => Message.request [RequestPart.userPrompt g] :: h.messages
  | none => h.messages

/-- The empty history, as built by `Repl.__init__` without a project guide. -/
def emptyHistory : MessageHistory := ⟨[], none⟩

/-! ## Session state (`src/axon/core/session.py`) -/

/-- The global `Session` dataclass.  Python sets are embedded as lists with
membership-respecting insertion. -/
structure Session where
  current_model : String
  allowed_commands : List String
  disabled_confirmations : List String
  confirmation_enabled : Bool
  debug_enabled : Bool
deriving DecidableEq, Repr

/-- Python `set.add`: insert the element when it is not already present. -/
def setAdd (s : List String) (x : String) : List String :=
  if x ∈ s then s else s ++ [x]

/-! ## Confirmation callback (`src/axon/core/agent.py`,
`_create_confirmation_callback`) -/

/-- Python `str.strip()` on a character list: drop whitespace from both
ends. -/
def pyStrip (cs : List Char) : List Char :=
  ((cs.dropWhile Char.isWhitespace).reverse.dropWhile Char.isWhitespace).reverse

/-- Python `.lower().strip()` applied to one raw prompt answer (the answers
at stake are ASCII: blank, y, yes, a, always, n, no, or anything else). -/
def normalizeAnswer (a : String) : String :=
  String.mk (pyStrip (a.toList.map Char.toLower))

/-- The tool-name extraction at the top of `confirm`:
`title.split(":")[0].strip() if ":" in title else title` — when a colon is
present, the characters before the first colon, stripped. -/
def extractToolName (title : String) : String :=
  if title.toList.contains ':' then
    String.mk (pyStrip (title.toList.takeWhile fun c => c ≠ ':'))
  else title

/-- The `while True` prompt loop of `confirm`, driven by a scripted list of
user answers.  Each raw answer is normalised by `.lower().strip()` as in the
source.  The result is `(approve, addToAlwaysAllow)`; `none` means every
scripted answer was unrecognised and the loop is still reprompting. -/
def promptLoop : List String → Option (Bool × Bool)
  | [] => none
  | a :: rest =>
    let choice := normalizeAnswer a
    if choice = "" ∨ choice = "y" ∨ choice = "yes" then some (true, false)
    else if choice = "a" ∨ choice = "always" then some (true, true)
    else if choice = "n" ∨ choice = "no" then some (false, false)
    else promptLoop rest

/-- `confirm(title, preview, footer)` from `_create_confirmation_callback`,
with the interactive input embedded as a scripted answer list.  Returns the
decision together with the session state it leaves behind; `none` means the
callback is still blocked reprompting. -/
def confirm (s : Session) (title : String) (answers : List String) :
    Option (Bool × Session) :=
  let tool_name := extractToolName title
  if s.confirmation_enabled = false ∨ tool_name ∈ s.disabled_confirmations then
    some (true, s)
  else
    match promptLoop answers with
    | none => none
    | some (res, addAlways) =>
      some (res,
        if addAlways then
          { s with disabled_confirmations := setAdd s.disabled_confirmations tool_name }
        else s)

/-! ## Toggle (`src/axon/commands/yolo.py`, `handle_yolo`) -/

/-- `handle_yolo`: flip `confirmation_enabled`; when the flip lands on
`true`, clear `disabled_confirmations`. -/
def handle_yolo (s : Session) : Session :=
  let s1 := { s with confirmation_enabled := !s.confirmation_enabled }
  if s1.confirmation_enabled then { s1 with disabled_confirmations := [] } else s1

/-! ## MCP tool-call confirmation wrapper (`src/axon/mcp/servers.py`,
`mcp_tool_confirmation_callback`) -/

/-- Outcome of one intercepted MCP tool call. -/
inductive MCPCallResult where
  | called (toolName : String)
  | cancelledByUser
  | blocked
deriving DecidableEq, Repr

/-- `mcp_tool_confirmation_callback`: when the deps carry a `confirm_action`,
route the call through `confirm` with title `MCP(tool_name)`; a denial raises
`CancelledError` (`cancelledByUser`); otherwise the original tool is called. -/
def mcp_tool_confirmation_callback (s : Session) (hasConfirmAction : Bool)
    (tool_name : String) (answers : List String) : MCPCallResult × Session :=
  if hasConfirmAction then
    match confirm s ("MCP(" ++ tool_name ++ ")") answers with
    | none => (MCPCallResult.blocked, s)
    | some (false, s1) => (MCPCallResult.cancelledByUser, s1)
    | some (true, s1) => (MCPCallResult.called tool_name, s1)
  else (MCPCallResult.called tool_name, s)

/-! ## Request outcomes (`src/axon/repl.py` `_handle_user_request`,
`src/axon/core/agent.py` `process_request`) -/

/-- How one request terminates: normal completion, cooperative cancellation
(an external interrupt, a denied MCP confirmation, or a normalised
transport-closed condition), or an unexpected error carrying its message. -/
inductive Outcome where
  | success
  | cancelled
  | error (msg : String)
deriving DecidableEq, Repr

/-- Appending one engine-produced entry to the history, as `_process_node`
does via `add_request` / `add_response`. -/
def appendEntry (h : MessageHistory) : Message → MessageHistory
  | .request ps => h.add_request ps
  | .response ps => h.add_response ps

/-- One request through `process_request` / `_handle_user_request`: the
engine's entries are appended in production order, then the exit path runs.

* `success`: nothing further is appended.
* `cancelled`: `repl.py` catches `asyncio.CancelledError` and calls
  `add_cancellation_note` (lines 107-110); `process_request` re-raises
  `CancelledError` without touching the history.
* `error msg`: modelled from the spec: `ErrorContext` (`axon/utils/error.py`)
  is not among the sources; per §4.4(8) and §7 its `handle` runs the cleanup
  registered in `process_request`, `message_history.patch_on_error(str(e))`,
  before surfacing the failure. -/
def runRequest (h : MessageHistory) (req : List Message × Outcome) : MessageHistory :=
  let h1 := req.1.foldl appendEntry h
  match req.2 with
  | .success => h1
  | .cancelled => h1.add_cancellation_note
  | .error msg => h1.patch_on_error msg

/-- Whether a response part list contains a tool call. -/
def responseHasToolCall (parts : List ResponsePart) : Bool :=
  parts.any isToolCall

/-- Normal completion of the engine run (`agent_run` falling out of its
`async for` with a result): the step sequence's final appended entry, when it
is a response, carries the final output and no pending tool call. -/
def engineComplete (trace : List Message) : Bool :=
  match trace.getLast? with
  | some (Message.response parts) => !responseHasToolCall parts
  | _ => true

/-- A tool call with id `callId` occurring in the entry at index `k` is
answered by a tool return in some strictly later entry. -/
def answeredAfter (ms : List Message) (k : Nat) (callId : String) : Prop :=
  ∃ j m, k < j ∧ ms.get? j = some m ∧ callId ∈ toolReturnIds m

/-- The protocol invariant on the stored history: if the final entry is a
response, every tool-call part in it is matched by a later tool return in the
same history. -/
def HistoryInvariant (ms : List Message) : Prop :=
  ∀ parts, ms.getLast? = some (Message.response parts) →
    ∀ n i, ResponsePart.toolCall n i ∈ parts →
      answeredAfter ms (ms.length - 1) i

/-! ## ToolServerLifecycle (`src/axon/mcp/agent.py`, `MCPAgent`) -/

/-- Observable state of the `MCPAgent` wrapper: the stored context manager
(opaque, identified by a token), the `_mcp_entered` flag, and counters for
the server start/stop side effects. -/
structure MCPAgentState where
  mcp_context : Option Nat
  mcp_entered : Bool
  starts : Nat
  stops : Nat
deriving DecidableEq, Repr

/-- A freshly constructed `MCPAgent`: no context, not entered. -/
def MCPAgentState.initial : MCPAgentState := ⟨none, false, 0, 0⟩

/-- `MCPAgent.__aenter__`: when not yet entered, obtain the context manager
from `run_mcp_servers()` and enter it (starting the servers); otherwise do
nothing. -/
def MCPAgentState.aenter (st : MCPAgentState) : MCPAgentState :=
  if st.mcp_entered then st
  else { st with
    mcp_context := some st.starts
    mcp_entered := true
    starts := st.starts + 1 }

/-- `MCPAgent.__aexit__`: when a context is stored and entered, exit it
(stopping the servers) and reset to inactive; otherwise do nothing. -/
def MCPAgentState.aexit (st : MCPAgentState) : MCPAgentState :=
  if st.mcp_context.isSome ∧ st.mcp_entered then
    { st with
      stops := st.stops + 1
      mcp_entered := false
      mcp_context := none }
  else st

/-! ## Pricing table (`src/axon/core/constants.py`, `MODELS`) -/

/-- One `pricing` record: per-million-token rates.  The Python floats are
embedded as exact rationals (every rate in the table is a decimal literal). -/
structure Pricing where
  input : ℚ
  cached_input : ℚ
  output : ℚ
deriving DecidableEq, Repr

/-- One `MODELS` entry: pricing plus context window. -/
structure ModelInfo where
  pricing : Pricing
  context_window : Nat
deriving DecidableEq, Repr

/-- The static `MODELS` table, in its source order (Python dicts preserve
insertion order). -/
def MODELS : List (String × ModelInfo) :=
  [ ("anthropic:claude-opus-4-0", ⟨⟨3, 3/2, 15⟩, 200000⟩),
    ("anthropic:claude-sonnet-4-0", ⟨⟨3, 3/2, 15⟩, 200000⟩),
    ("anthropic:claude-3-7-sonnet-latest", ⟨⟨3, 3/2, 15⟩, 200000⟩),
    ("google-gla:gemini-2.5-pro", ⟨⟨5/4, 5/4, 10⟩, 2000000⟩),
    ("google-gla:gemini-2.5-flash", ⟨⟨3/10, 7/200, 5/2⟩, 2000000⟩),
    ("openai:o4-mini", ⟨⟨11/10, 11/40, 22/5⟩, 200000⟩),
    ("openai:o3-pro", ⟨⟨20, 20, 80⟩, 200000⟩),
    ("openai:o3", ⟨⟨10, 5/2, 40⟩, 200000⟩),
    ("openai:o3-mini", ⟨⟨11/10, 11/20, 22/5⟩, 200000⟩),
    ("openai:gpt-4.1", ⟨⟨2, 1/2, 8⟩, 1047576⟩),
    ("openai:gpt-4.1-mini", ⟨⟨2/5, 1/10, 8/5⟩, 1047576⟩),
    ("openai:gpt-4.1-nano", ⟨⟨1/10, 1/40, 2/5⟩, 1047576⟩) ]

/-- The table's first entry (`MODELS[model_ids[0]]`), used as fallback. -/
def firstModelInfo : ModelInfo :=
  match MODELS with
  | (_, info) :: _ => info
  | [] => ⟨⟨0, 0, 0⟩, 0⟩

/-- `MODELS.get(model, MODELS[model_ids[0]])["pricing"]`. -/
def lookupPricing (model : String) : Pricing :=
  ((MODELS.lookup model).getD firstModelInfo).pricing

/-! ## Usage accounting (`src/axon/core/usage.py`) -/

/-- A pydantic_ai usage sample as read by `record_usage`: `request_tokens`,
`response_tokens`, and the detail list where each detail may or may not carry
a `cached_tokens` field (`none` embeds a detail without the field). -/
structure UsageSample where
  request_tokens : Int
  details : List (Option Int)
  response_tokens : Int
deriving DecidableEq, Repr

/-- The `ModelUsage` dataclass. -/
structure ModelUsage where
  requests : Nat
  input_tokens : Int
  cached_tokens : Int
  output_tokens : Int
  total_cost : ℚ
deriving DecidableEq, Repr

/-- `ModelUsage()` default construction: all zero. -/
def ModelUsage.init : ModelUsage := ⟨0, 0, 0, 0, 0⟩

/-- `ModelUsage.add_usage`. -/
def ModelUsage.add_usage (mu : ModelUsage) (input cached output : Int) (cost : ℚ) :
    ModelUsage :=
  { requests := mu.requests + 1
    input_tokens := mu.input_tokens + input
    cached_tokens := mu.cached_tokens + cached
    output_tokens := mu.output_tokens + output
    total_cost := mu.total_cost + cost }

/-- The `last_request` display record stored by `record_usage`. -/
structure LastRequest where
  model : String
  input_tokens : Int
  cached_tokens : Int
  output_tokens : Int
  input_cost : ℚ
  cached_cost : ℚ
  output_cost : ℚ
  request_cost : ℚ
  total_cost : ℚ
deriving DecidableEq, Repr

/-- The `UsageTracker` dataclass: the per-model dict embedded as an
insertion-ordered association list, plus the last-request snapshot. -/
structure UsageTracker where
  model_usage : List (String × ModelUsage)
  last_request : Option LastRequest
deriving DecidableEq, Repr

/-- A fresh `UsageTracker()`. -/
def UsageTracker.init : UsageTracker := ⟨[], none⟩

/-- `self.model_usage[model] = ModelUsage()` (when absent) followed by
`self.model_usage[model].add_usage(...)`, on the association list. -/
def updateModelUsage (l : List (String × ModelUsage)) (model : String)
    (input cached output : Int) (cost : ℚ) : List (String × ModelUsage) :=
  match l with
  | [] => [(model, ModelUsage.init.add_usage input cached output cost)]
  | (k, v) :: rest =>
    if k = model then (k, v.add_usage input cached output cost) :: rest
    else (k, v) :: updateModelUsage rest model input cached output cost

/-- `UsageTracker.total_tokens`. -/
def UsageTracker.total_tokens (tr : UsageTracker) : Int :=
  (tr.model_usage.map fun kv => kv.2.input_tokens + kv.2.output_tokens).sum

/-- `UsageTracker.total_cost`. -/
def UsageTracker.total_cost (tr : UsageTracker) : ℚ :=
  (tr.model_usage.map fun kv => kv.2.total_cost).sum

/-- `UsageTracker.total_requests`. -/
def UsageTracker.total_requests (tr : UsageTracker) : Nat :=
  (tr.model_usage.map fun kv => kv.2.requests).sum

/-- `UsageTracker.record_usage`, translated clause by clause from the
source. -/
def UsageTracker.record_usage (tr : UsageTracker) (model : String)
    (usage : UsageSample) : UsageTracker :=
  let cached_tokens : Int := (usage.details.filterMap id).sum
  let input_tokens := usage.request_tokens
  let non_cached_input := input_tokens - cached_tokens
  let output_tokens := usage.response_tokens
  let pricing := lookupPricing model
  let input_cost : ℚ := (non_cached_input : ℚ) / 1000000 * pricing.input
  let cached_cost : ℚ := (cached_tokens : ℚ) / 1000000 * pricing.cached_input
  let output_cost : ℚ := (output_tokens : ℚ) / 1000000 * pricing.output
  let request_cost := input_cost + cached_cost + output_cost
  let model_usage1 :=
    updateModelUsage tr.model_usage model input_tokens cached_tokens output_tokens request_cost
  let tr1 : UsageTracker := { tr with model_usage := model_usage1 }
  { tr1 with
    last_request := some
      { model := model
        input_tokens := input_tokens
        cached_tokens := cached_tokens
        output_tokens := output_tokens
        input_cost := input_cost
        cached_cost := cached_cost
        output_cost := output_cost
        request_cost := request_cost
        total_cost := tr1.total_cost } }

/-! ## Model command (`src/axon/commands/model.py`, `handle_model`) -/

/-- The ordered model list (`list(MODELS.keys())`). -/
def modelList : List String := MODELS.map Prod.fst

/-- `update_config_file` on a single string-valued key: dict assignment
`config[key] = value`, preserving key order (file IO elided). -/
def configSet : List (String × String) → String → String → List (String × String)
  | [], k, v => [(k, v)]
  | (k1, v1) :: rest, k, v =>
    if k1 = k then (k1, v) :: rest else (k1, v1) :: configSet rest k v

/-- The state touched by `/model`: the in-memory session and the persisted
configuration. -/
structure AppState where
  session : Session
  config : List (String × String)
deriving DecidableEq, Repr

/-- Decimal digit accumulation for `pyInt?`; `none` embeds a non-digit
character (Python `ValueError`). -/
def parseDigitsAux : List Char → Nat → Option Nat
  | [], acc => some acc
  | c :: rest, acc =>
    if c.isDigit then parseDigitsAux rest (acc * 10 + (c.toNat - 48)) else none

/-- Decimal digit run: at least one digit. -/
def parseDigits : List Char → Option Nat
  | [] => none
  | cs => parseDigitsAux cs 0

/-- Python `int(s)` on the whitespace-free argument strings produced by the
command tokenizer (`user_input.split()`): an optional sign followed by at
least one decimal digit; `none` embeds the `ValueError` branch. -/
def pyInt? (s : String) : Option Int :=
  match s.toList with
  | '-' :: rest => (parseDigits rest).map fun n => -(n : Int)
  | '+' :: rest => (parseDigits rest).map fun n => (n : Int)
  | cs => (parseDigits cs).map fun n => (n : Int)

/-- `handle_model(args)`: list models (no args), or switch the session model,
or persist the default. -/
def handle_model (st : AppState) (args : List String) : AppState :=
  match args with
  | [] => st
  | a0 :: rest =>
    match pyInt? a0 with
    | none => st
    | some model_num =>
      if 1 ≤ model_num ∧ model_num ≤ (modelList.length : Int) then
        let selected := modelList.getD (model_num - 1).toNat ""
        match rest with
        | d :: _ =>
          if d = "default" then
            { st with config := configSet st.config "default_model" selected }
          else
            { st with session := { st.session with current_model := selected } }
        | [] =>
          { st with session := { st.session with current_model := selected } }
      else st

/-! ## Helper definitions and lemmas -/

/-- Number of tool-return parts for a given call id across a history. -/
def countReturnsFor (ms : List Message) (callId : String) : Nat :=
  (ms.map fun m => (toolReturnIds m).count callId).sum

/-- The session state after an "always" answer for tool `t`. -/
def withAlways (s : Session) (t : String) : Session :=
  { s with disabled_confirmations := setAdd s.disabled_confirmations t }

/-- Boolean form of the protocol invariant restricted to the final entry. -/
def lastEntryOk (ms : List Message) : Bool :=
  match ms.getLast? with
  | some (Message.response parts) => !responseHasToolCall parts
  | _ => true

theorem lastToolCall_eq_none_iff (parts : List ResponsePart) :
    lastToolCall parts = none ↔ ∀ p ∈ parts, isToolCall p = false := by
  induction parts with
  | nil => simp [lastToolCall]
  | cons p rest ih =>
    cases hr : lastToolCall rest with
    | some tc =>
      simp only [lastToolCall, hr]
      constructor
      · intro hc; exact absurd hc (by simp)
      · intro hall
        have : ∀ q ∈ rest, isToolCall q = false := fun q hq => hall q (List.mem_cons_of_mem _ hq)
        rw [ih.2 this] at hr
        exact absurd hr (by simp)
    | none =>
      simp only [lastToolCall, hr]
      cases p with
      | text c =>
        simp only [true_iff, List.mem_cons, forall_eq_or_imp]
        exact ⟨rfl, fun q hq => ih.1 hr q hq⟩
      | toolCall n i =>
        constructor
        · intro hc; exact absurd hc (by simp)
        · intro hall
          have := hall (ResponsePart.toolCall n i) (List.mem_cons_self _ _)
          simp [isToolCall] at this

theorem lastToolCall_isSome_iff (parts : List ResponsePart) :
    (lastToolCall parts).isSome = true ↔ ∃ n i, ResponsePart.toolCall n i ∈ parts := by
  rw [Option.isSome_iff_ne_none]
  constructor
  · intro hne
    by_contra hno
    push_neg at hno
    apply hne
    rw [lastToolCall_eq_none_iff]
    intro p hp
    cases p with
    | text c => simp [isToolCall]
    | toolCall n i => exact absurd hp (hno n i)
  · rintro ⟨n, i, hmem⟩ hnone
    have := (lastToolCall_eq_none_iff parts).1 hnone _ hmem
    simp [isToolCall] at this

theorem responseHasToolCall_eq_false_iff (parts : List ResponsePart) :
    responseHasToolCall parts = false ↔ lastToolCall parts = none := by
  rw [lastToolCall_eq_none_iff]
  simp [responseHasToolCall, List.any_eq_false]

theorem not_answeredAfter_last (ms : List Message) (i : String) :
    ¬ answeredAfter ms (ms.length - 1) i := by
  rintro ⟨j, m, hj, hget, _⟩
  have hlt : j < ms.length := List.get?_eq_some.1 hget |>.1
  omega

theorem lastEntryOk_invariant (ms : List Message) (h : lastEntryOk ms = true) :
    HistoryInvariant ms := by
  intro parts hlast n i hmem
  exfalso
  unfold lastEntryOk at h
  rw [hlast] at h
  simp only [Bool.not_eq_true'] at h
  have := (responseHasToolCall_eq_false_iff parts).1 h
  have := (lastToolCall_eq_none_iff parts).1 this _ hmem
  simp [isToolCall] at this

theorem foldl_appendEntry_messages (trace : List Message) (h : MessageHistory) :
    (trace.foldl appendEntry h).messages = h.messages ++ trace := by
  induction trace generalizing h with
  | nil => simp
  | cons m rest ih =>
    cases m with
    | request ps =>
      simp [appendEntry, ih, MessageHistory.add_request]
    | response ps =>
      simp [appendEntry, ih, MessageHistory.add_response]

theorem foldl_appendEntry_guide (trace : List Message) (h : MessageHistory) :
    (trace.foldl appendEntry h).projectGuide = h.projectGuide := by
  induction trace generalizing h with
  | nil => rfl
  | cons m rest ih =>
    cases m with
    | request ps => simp [appendEntry, ih, MessageHistory.add_request]
    | response ps => simp [appendEntry, ih, MessageHistory.add_response]

theorem mem_setAdd_self (l : List String) (x : String) : x ∈ setAdd l x := by
  unfold setAdd
  split
  · assumption
  · simp

theorem patch_on_error_last_response (h : MessageHistory) (msg : String)
    (parts : List ResponsePart)
    (hl : h.messages.getLast? = some (Message.response parts)) :
    h.patch_on_error msg =
      match lastToolCall parts with
      | some (n, i) => h.add_request [RequestPart.toolReturn n i msg]
      | none => h := by
  unfold MessageHistory.patch_on_error
  rw [hl]

theorem extractToolName_no_colon (t : String) (ht : t.toList.contains ':' = false) :
    extractToolName t = t := by
  unfold extractToolName
  split
  · next hc => rw [ht] at hc; exact absurd hc (by simp)
  · rfl

theorem lastEntryOk_concat_request (l : List Message) (ps : List RequestPart) :
    lastEntryOk (l ++ [Message.request ps]) = true := by
  unfold lastEntryOk
  rw [List.getLast?_concat]

theorem lastEntryOk_congr (l1 l2 : List Message) (hgl : l1.getLast? = l2.getLast?) :
    lastEntryOk l1 = lastEntryOk l2 := by
  unfold lastEntryOk
  rw [hgl]

theorem engineComplete_eq_lastEntryOk (l : List Message) :
    engineComplete l = lastEntryOk l := rfl

theorem lastEntryOk_runRequest (h : MessageHistory) (r : List Message × Outcome)
    (hok : lastEntryOk h.messages = true)
    (hs : r.2 = Outcome.success → engineComplete r.1 = true) :
    lastEntryOk (runRequest h r).messages = true := by
  obtain ⟨trace, o⟩ := r
  cases o with
  | success =>
    have hc : engineComplete trace = true := hs rfl
    show lastEntryOk ((trace.foldl appendEntry h).messages) = true
    rw [foldl_appendEntry_messages]
    cases trace with
    | nil => simpa using hok
    | cons m ms =>
      rw [lastEntryOk_congr (h.messages ++ m :: ms) (m :: ms)
        (List.getLast?_append_of_ne_nil _ (by simp))]
      rw [← engineComplete_eq_lastEntryOk]
      exact hc
  | cancelled =>
    show lastEntryOk
      ((trace.foldl appendEntry h).messages ++
        [Message.request [RequestPart.userPrompt cancellationNote]]) = true
    exact lastEntryOk_concat_request _ _
  | error msg =>
    show lastEntryOk (((trace.foldl appendEntry h).patch_on_error msg).messages) = true
    cases hgl : (trace.foldl appendEntry h).messages.getLast? with
    | none =>
      have hp : (trace.foldl appendEntry h).patch_on_error msg = trace.foldl appendEntry h := by
        unfold MessageHistory.patch_on_error
        rw [hgl]
      rw [hp]
      unfold lastEntryOk
      rw [hgl]
    | some m =>
      cases m with
      | request ps =>
        have hp : (trace.foldl appendEntry h).patch_on_error msg =
            trace.foldl appendEntry h := by
          unfold MessageHistory.patch_on_error
          rw [hgl]
        rw [hp]
        unfold lastEntryOk
        rw [hgl]
      | response parts =>
        cases hlt : lastToolCall parts with
        | none =>
          rw [patch_on_error_last_response _ msg parts hgl, hlt]
          unfold lastEntryOk
          rw [hgl]
          show (!responseHasToolCall parts) = true
          rw [(responseHasToolCall_eq_false_iff parts).2 hlt]
          rfl
        | some tc =>
          obtain ⟨n, i⟩ := tc
          rw [patch_on_error_last_response _ msg parts hgl, hlt]
          exact lastEntryOk_concat_request _ _

theorem foldl_runRequest_lastEntryOk (reqs : List (List Message × Outcome)) :
    ∀ h : MessageHistory, lastEntryOk h.messages = true →
    (∀ r ∈ reqs, r.2 = Outcome.success → engineComplete r.1 = true) →
    lastEntryOk ((reqs.foldl runRequest h).messages) = true := by
  induction reqs with
  | nil =>
    intro h hok _
    simpa using hok
  | cons r rest ih =>
    intro h hok hs
    simp only [List.foldl_cons]
    exact ih _ (lastEntryOk_runRequest h r hok (hs r (List.mem_cons_self _ _)))
      (fun q hq hqs => hs q (List.mem_cons_of_mem _ hq) hqs)

/-! ## Claim theorems -/

/-- C1: the claim states that an MCP tool call always requires an interactive
confirmation decision, even with the session's confirmation-enabled flag
false.  The code contradicts this (and the callback's own docstring): with
`confirmation_enabled = false` the confirmation callback returns true at
once, so the wrapped call is forwarded to the original tool with an empty
interaction script — no confirmation decision ever takes place. -/
theorem c1_mcp_confirmation_suppressed_by_toggle :
    mcp_tool_confirmation_callback ⟨"m", [], [], false, false⟩ true "fetch" [] =
      (MCPCallResult.called "fetch", ⟨"m", [], [], false, false⟩) := by
  rfl

/-- C2: after any finite sequence of requests, each ending in success,
cancellation or error, the history carries no trailing unanswered tool call:
if its final entry is a response, every tool-call part in it is matched by a
later tool return in the same history.  The cancellation path re-establishes
this by appending the cancellation-note request, the error path by
`patch_on_error`; for successful requests the engine's normal-completion
contract (the final response of a finished run carries the final output, not
a pending tool call) is assumed. -/
theorem c2_no_trailing_unanswered_tool_call (g : Option String)
    (reqs : List (List Message × Outcome))
    (hsucc : ∀ r ∈ reqs, r.2 = Outcome.success → engineComplete r.1 = true) :
    HistoryInvariant ((reqs.foldl runRequest ⟨[], g⟩).messages) := by
  apply lastEntryOk_invariant
  exact foldl_runRequest_lastEntryOk reqs ⟨[], g⟩ rfl hsucc

/-- Witness for C2: a cancelled request leaving an unanswered tool call, a
successful request, and an errored request, run in sequence. -/
theorem c2_no_trailing_unanswered_tool_call_witness :
    (∀ r ∈ [([Message.response [ResponsePart.toolCall "w" "c1"]], Outcome.cancelled),
            ([Message.request [RequestPart.userPrompt "hi"],
              Message.response [ResponsePart.text "done"]], Outcome.success),
            ([Message.response [ResponsePart.toolCall "x" "c2"]], Outcome.error "boom")],
        r.2 = Outcome.success → engineComplete r.1 = true) ∧
    HistoryInvariant
      (([([Message.response [ResponsePart.toolCall "w" "c1"]], Outcome.cancelled),
         ([Message.request [RequestPart.userPrompt "hi"],
           Message.response [ResponsePart.text "done"]], Outcome.success),
         ([Message.response [ResponsePart.toolCall "x" "c2"]],
           Outcome.error "boom")].foldl runRequest
        (⟨[], none⟩ : MessageHistory)).messages) :=
  ⟨by decide, c2_no_trailing_unanswered_tool_call none _ (by decide)⟩

/-- C3: the claim states that cancelling a request whose in-flight response
holds one unmatched tool call makes the next history entry a request carrying
a ToolReturn for that call with the cancellation message.  The code instead
appends a plain user-prompt cancellation note and never synthesizes a
ToolReturn on the cancellation path: starting from a history ending in a
response with the single unmatched call `call_1`, the cancelled request
leaves the call without any tool return. -/
theorem c3_cancellation_appends_note_not_tool_return :
    (runRequest ⟨[Message.response [ResponsePart.toolCall "write_file" "call_1"]], none⟩
        ([], Outcome.cancelled)).messages =
      [Message.response [ResponsePart.toolCall "write_file" "call_1"],
       Message.request [RequestPart.userPrompt cancellationNote]] ∧
    countReturnsFor
      (runRequest ⟨[Message.response [ResponsePart.toolCall "write_file" "call_1"]], none⟩
        ([], Outcome.cancelled)).messages "call_1" = 0 := by
  constructor <;> rfl

/-- C4: full characterisation of `patch_on_error`.  It appends exactly one
new request holding a tool return that carries the message with the id and
name of the tool call found by the reverse scan of the final entry's parts;
the code's firing condition (last entry a response containing a tool call)
is equivalent to the claim's side condition (history non-empty, last entry a
response containing a tool call with no later tool return in the history);
and in every other case — empty history, last entry a request, or no
tool-call part — the history is left completely unchanged. -/
theorem c4_patch_on_error_iff (h : MessageHistory) (msg : String) :
    (∀ parts n i, h.messages.getLast? = some (Message.response parts) →
        lastToolCall parts = some (n, i) →
        (h.patch_on_error msg).messages =
          h.messages ++ [Message.request [RequestPart.toolReturn n i msg]]) ∧
    ((∃ parts, h.messages.getLast? = some (Message.response parts) ∧
        (lastToolCall parts).isSome = true) ↔
      (h.messages ≠ [] ∧ ∃ parts n i,
        h.messages.getLast? = some (Message.response parts) ∧
        ResponsePart.toolCall n i ∈ parts ∧
        ¬ answeredAfter h.messages (h.messages.length - 1) i)) ∧
    (h.messages = [] → h.patch_on_error msg = h) ∧
    (∀ ps, h.messages.getLast? = some (Message.request ps) → h.patch_on_error msg = h) ∧
    (∀ parts, h.messages.getLast? = some (Message.response parts) →
        lastToolCall parts = none → h.patch_on_error msg = h) := by
  refine ⟨?_, ⟨?_, ?_⟩, ?_, ?_, ?_⟩
  · intro parts n i hl hlast
    rw [patch_on_error_last_response h msg parts hl, hlast]
    rfl
  · rintro ⟨parts, hl, hsome⟩
    obtain ⟨n, i, hmem⟩ := (lastToolCall_isSome_iff parts).1 hsome
    refine ⟨?_, parts, n, i, hl, hmem, not_answeredAfter_last _ _⟩
    intro he
    rw [he] at hl
    simp at hl
  · rintro ⟨-, parts, n, i, hl, hmem, -⟩
    exact ⟨parts, hl, (lastToolCall_isSome_iff parts).2 ⟨n, i, hmem⟩⟩
  · intro he
    unfold MessageHistory.patch_on_error
    rw [he]
    rfl
  · intro ps hl
    unfold MessageHistory.patch_on_error
    rw [hl]
  · intro parts hl hnone
    rw [patch_on_error_last_response h msg parts hl, hnone]

/-- Witness for C4 at a history whose final entry is a response with a
single tool call. -/
theorem c4_patch_on_error_iff_witness :
    (⟨[Message.response [ResponsePart.toolCall "w" "c1"]], none⟩ :
        MessageHistory).messages.getLast? =
      some (Message.response [ResponsePart.toolCall "w" "c1"]) ∧
    lastToolCall [ResponsePart.toolCall "w" "c1"] = some ("w", "c1") ∧
    ((⟨[Message.response [ResponsePart.toolCall "w" "c1"]], none⟩ :
        MessageHistory).patch_on_error "boom").messages =
      [Message.response [ResponsePart.toolCall "w" "c1"]] ++
        [Message.request [RequestPart.toolReturn "w" "c1" "boom"]] :=
  ⟨rfl, rfl,
    (c4_patch_on_error_iff ⟨[Message.response [ResponsePart.toolCall "w" "c1"]], none⟩
        "boom").1 [ResponsePart.toolCall "w" "c1"] "w" "c1" rfl rfl⟩

theorem lastToolCall_append_last (pre post : List ResponsePart) (n i : String)
    (hpost : ∀ p ∈ post, isToolCall p = false) :
    lastToolCall (pre ++ ResponsePart.toolCall n i :: post) = some (n, i) := by
  induction pre with
  | nil =>
    simp only [List.nil_append, lastToolCall]
    rw [(lastToolCall_eq_none_iff post).2 hpost]
  | cons p pre ih =>
    simp only [List.cons_append, lastToolCall, List.append_eq]
    rw [ih]

/-- C10: when the final history entry is a response whose parts end in a
tool call with only non-tool-call parts after it (in particular when two or
more unmatched tool calls are present), `patch_on_error` synthesizes a tool
return only for that last tool call; the tool-return count of every other
call id is unchanged, so every earlier unmatched tool call in the response
stays unmatched. -/
theorem c10_patch_targets_last_call (h : MessageHistory)
    (parts pre post : List ResponsePart) (n i msg : String)
    (hl : h.messages.getLast? = some (Message.response parts))
    (hparts : parts = pre ++ ResponsePart.toolCall n i :: post)
    (hpost : ∀ p ∈ post, isToolCall p = false) :
    (h.patch_on_error msg).messages =
      h.messages ++ [Message.request [RequestPart.toolReturn n i msg]] ∧
    ∀ j, j ≠ i →
      countReturnsFor (h.patch_on_error msg).messages j = countReturnsFor h.messages j := by
  have hlast : lastToolCall parts = some (n, i) := by
    rw [hparts]
    exact lastToolCall_append_last pre post n i hpost
  have hmsgs : (h.patch_on_error msg).messages =
      h.messages ++ [Message.request [RequestPart.toolReturn n i msg]] := by
    rw [patch_on_error_last_response h msg parts hl, hlast]
    rfl
  refine ⟨hmsgs, ?_⟩
  intro j hj
  rw [hmsgs]
  unfold countReturnsFor
  rw [List.map_append, List.sum_append]
  simp [toolReturnIds, List.count_cons, hj, Ne.symm hj]

/-- Witness for C10: a response ending with two unmatched tool calls; only
the second call receives a synthetic return, the first stays unanswered. -/
theorem c10_patch_targets_last_call_witness :
    (⟨[Message.response
        [ResponsePart.toolCall "a" "1", ResponsePart.toolCall "b" "2"]], none⟩ :
        MessageHistory).messages.getLast? =
      some (Message.response
        [ResponsePart.toolCall "a" "1", ResponsePart.toolCall "b" "2"]) ∧
    ((⟨[Message.response
        [ResponsePart.toolCall "a" "1", ResponsePart.toolCall "b" "2"]], none⟩ :
        MessageHistory).patch_on_error "err").messages =
      [Message.response [ResponsePart.toolCall "a" "1", ResponsePart.toolCall "b" "2"]] ++
        [Message.request [RequestPart.toolReturn "b" "2" "err"]] ∧
    countReturnsFor
      ((⟨[Message.response
          [ResponsePart.toolCall "a" "1", ResponsePart.toolCall "b" "2"]], none⟩ :
          MessageHistory).patch_on_error "err").messages "1" =
      countReturnsFor
        [Message.response
          [ResponsePart.toolCall "a" "1", ResponsePart.toolCall "b" "2"]] "1" := by
  refine ⟨rfl, ?_, ?_⟩
  · exact (c10_patch_targets_last_call
      ⟨[Message.response [ResponsePart.toolCall "a" "1", ResponsePart.toolCall "b" "2"]], none⟩
      [ResponsePart.toolCall "a" "1", ResponsePart.toolCall "b" "2"]
      [ResponsePart.toolCall "a" "1"] [] "b" "2" "err" rfl rfl (by simp)).1
  · exact (c10_patch_targets_last_call
      ⟨[Message.response [ResponsePart.toolCall "a" "1", ResponsePart.toolCall "b" "2"]], none⟩
      [ResponsePart.toolCall "a" "1", ResponsePart.toolCall "b" "2"]
      [ResponsePart.toolCall "a" "1"] [] "b" "2" "err" rfl rfl (by simp)).2 "1" (by decide)

/-- C6: `handle_yolo` flips the confirmation flag; a flip landing on `true`
clears the exemption set, a flip landing on `false` leaves it untouched, and
from an enabled state with any exemption set two toggles restore `enabled`
and empty the set. -/
theorem c6_handle_yolo_toggle (s : Session) :
    (handle_yolo s).confirmation_enabled = !s.confirmation_enabled ∧
    ((handle_yolo s).confirmation_enabled = true →
      (handle_yolo s).disabled_confirmations = []) ∧
    ((handle_yolo s).confirmation_enabled = false →
      (handle_yolo s).disabled_confirmations = s.disabled_confirmations) ∧
    (s.confirmation_enabled = true →
      (handle_yolo (handle_yolo s)).confirmation_enabled = true ∧
      (handle_yolo (handle_yolo s)).disabled_confirmations = []) := by
  cases h : s.confirmation_enabled <;>
    simp [handle_yolo, h]

/-- Witness for C6 at a concrete session with a non-empty exemption set. -/
theorem c6_handle_yolo_toggle_witness :
    (Session.mk "m" [] ["toolA"] true false).confirmation_enabled = true ∧
    ((handle_yolo (handle_yolo (Session.mk "m" [] ["toolA"] true false))).confirmation_enabled
        = true ∧
     (handle_yolo (handle_yolo (Session.mk "m" [] ["toolA"] true false))).disabled_confirmations
        = []) :=
  ⟨rfl, (c6_handle_yolo_toggle (Session.mk "m" [] ["toolA"] true false)).2.2.2 rfl⟩

/-- C8: the MCP server lifecycle is idempotent and reusable: a second
`__aenter__` without an intervening `__aexit__` is a no-op (servers started
once), `__aexit__` on an inactive wrapper — including a never-entered one —
is a no-op, and after `__aexit__` the wrapper can be entered again for a new
start. -/
theorem c8_mcp_lifecycle (st : MCPAgentState) :
    st.aenter.aenter = st.aenter ∧
    (st.mcp_entered = false → st.aexit = st) ∧
    MCPAgentState.initial.aexit = MCPAgentState.initial ∧
    MCPAgentState.initial.aenter.aenter.starts = 1 ∧
    MCPAgentState.initial.aenter.aexit.aenter.starts = 2 ∧
    MCPAgentState.initial.aenter.aexit.aenter.mcp_entered = true := by
  refine ⟨?_, ?_, by decide, by decide, by decide, by decide⟩
  · cases h : st.mcp_entered <;>
      simp [MCPAgentState.aenter, h]
  · intro h
    simp [MCPAgentState.aexit, h]

/-- C5: the confirmation prompt semantics.  With the gate disabled or the
tool exempted, `confirm` approves with no interaction (any answer script,
including the empty one, yields true and an unchanged session).  Otherwise a
blank, "y" or "yes" answer approves once; an "a"/"always" answer approves
and adds the tool to the exemption set, after which every later decision for
the tool approves with no interaction; an "n"/"no" answer denies; any other
answer reprompts.  Tool names are colon-free, so the title-to-tool-name
extraction is the identity. -/
theorem c5_confirmation_gate (s : Session) (t : String)
    (ht : t.toList.contains ':' = false) :
    ((s.confirmation_enabled = false ∨ t ∈ s.disabled_confirmations) →
        ∀ answers, confirm s t answers = some (true, s)) ∧
    (s.confirmation_enabled = true → t ∉ s.disabled_confirmations →
      ((∀ a rest,
          (normalizeAnswer a = "" ∨ normalizeAnswer a = "y" ∨ normalizeAnswer a = "yes") →
          confirm s t (a :: rest) = some (true, s)) ∧
       (∀ a rest, (normalizeAnswer a = "a" ∨ normalizeAnswer a = "always") →
          confirm s t (a :: rest) = some (true, withAlways s t) ∧
          ∀ answers2, confirm (withAlways s t) t answers2 = some (true, withAlways s t)) ∧
       (∀ a rest, (normalizeAnswer a = "n" ∨ normalizeAnswer a = "no") →
          confirm s t (a :: rest) = some (false, s)) ∧
       (∀ a rest,
          normalizeAnswer a ≠ "" → normalizeAnswer a ≠ "y" → normalizeAnswer a ≠ "yes" →
          normalizeAnswer a ≠ "a" → normalizeAnswer a ≠ "always" →
          normalizeAnswer a ≠ "n" → normalizeAnswer a ≠ "no" →
          confirm s t (a :: rest) = confirm s t rest))) := by
  have hext : extractToolName t = t := extractToolName_no_colon t ht
  constructor
  · intro hgate answers
    unfold confirm
    rw [hext, if_pos hgate]
  · intro hen hnot
    have hgate : ¬ (s.confirmation_enabled = false ∨ t ∈ s.disabled_confirmations) := by
      simp [hen, hnot]
    refine ⟨?_, ?_, ?_, ?_⟩
    · intro a rest hch
      unfold confirm
      rw [hext, if_neg hgate]
      have : promptLoop (a :: rest) = some (true, false) := by
        unfold promptLoop
        rw [if_pos hch]
      rw [this]
      rfl
    · intro a rest hch
      have hnotyes : ¬ (normalizeAnswer a = "" ∨ normalizeAnswer a = "y" ∨
          normalizeAnswer a = "yes") := by
        rcases hch with h1 | h1 <;> rw [h1] <;> decide
      constructor
      · unfold confirm
        rw [hext, if_neg hgate]
        have : promptLoop (a :: rest) = some (true, true) := by
          unfold promptLoop
          rw [if_neg hnotyes, if_pos hch]
        rw [this]
        rfl
      · intro answers2
        unfold confirm
        have hmem : extractToolName t ∈ (withAlways s t).disabled_confirmations := by
          rw [hext]
          exact mem_setAdd_self _ _
        rw [if_pos (Or.inr hmem)]
    · intro a rest hch
      have hnotyes : ¬ (normalizeAnswer a = "" ∨ normalizeAnswer a = "y" ∨
          normalizeAnswer a = "yes") := by
        rcases hch with h1 | h1 <;> rw [h1] <;> decide
      have hnotalways : ¬ (normalizeAnswer a = "a" ∨ normalizeAnswer a = "always") := by
        rcases hch with h1 | h1 <;> rw [h1] <;> decide
      unfold confirm
      rw [hext, if_neg hgate]
      have : promptLoop (a :: rest) = some (false, false) := by
        unfold promptLoop
        rw [if_neg hnotyes, if_neg hnotalways, if_pos hch]
      rw [this]
      rfl
    · intro a rest h1 h2 h3 h4 h5 h6 h7
      have : promptLoop (a :: rest) = promptLoop rest := by
        conv_lhs => unfold promptLoop
        rw [if_neg (by simp [h1, h2, h3]), if_neg (by simp [h4, h5]),
          if_neg (by simp [h6, h7])]
      unfold confirm
      rw [hext, if_neg hgate, if_neg hgate, this]

/-- Witness for C5: a concrete enabled, non-exempted session where a "no"
answer denies. -/
theorem c5_confirmation_gate_witness :
    ("toolA".toList.contains ':' = false) ∧
    (Session.mk "m" [] [] true false).confirmation_enabled = true ∧
    "toolA" ∉ (Session.mk "m" [] [] true false).disabled_confirmations ∧
    confirm (Session.mk "m" [] [] true false) "toolA" ["n"] =
      some (false, Session.mk "m" [] [] true false) :=
  ⟨by decide, rfl, by decide,
    ((c5_confirmation_gate (Session.mk "m" [] [] true false) "toolA"
        (by decide)).2 rfl (by decide)).2.2.1 "n" [] (Or.inl (by decide))⟩

/-- Witness for C8 at the freshly constructed (inactive) wrapper. -/
theorem c8_mcp_lifecycle_witness :
    MCPAgentState.initial.mcp_entered = false ∧
    MCPAgentState.initial.aexit = MCPAgentState.initial :=
  ⟨rfl, (c8_mcp_lifecycle MCPAgentState.initial).2.1 rfl⟩

/-- C7: `record_usage` cost arithmetic.  The recorded request cost equals
`(nonCachedInput*rateInput + cachedTokens*rateCachedInput +
outputTokens*rateOutput) / 1_000_000` against the static table's rates; an
unknown model id falls back to the table's first entry; the
`{input 2.00, cached_input 0.50, output 8.00}` scenario (the `openai:gpt-4.1`
rates) with 1,000,000 input, 0 cached and 1,000,000 output tokens costs
exactly 10.00 per request and two such calls give 2 requests and total cost
20.00; and the derived tracker totals are the sums over all per-model
accumulators. -/
theorem c7_usage_math (tr : UsageTracker) (m : String) (u : UsageSample) :
    (((tr.record_usage m u).last_request.map LastRequest.request_cost) =
      some ((((u.request_tokens - (u.details.filterMap id).sum : Int) : ℚ) *
                (lookupPricing m).input +
             (((u.details.filterMap id).sum : Int) : ℚ) * (lookupPricing m).cached_input +
             ((u.response_tokens : Int) : ℚ) * (lookupPricing m).output) / 1000000)) ∧
    (MODELS.lookup m = none → lookupPricing m = firstModelInfo.pricing) ∧
    lookupPricing "openai:gpt-4.1" = ⟨2, 1/2, 8⟩ ∧
    ((UsageTracker.init.record_usage "openai:gpt-4.1" ⟨1000000, [], 1000000⟩).last_request.map
        LastRequest.request_cost) = some 10 ∧
    ((UsageTracker.init.record_usage "openai:gpt-4.1" ⟨1000000, [], 1000000⟩).record_usage
        "openai:gpt-4.1" ⟨1000000, [], 1000000⟩).total_requests = 2 ∧
    ((UsageTracker.init.record_usage "openai:gpt-4.1" ⟨1000000, [], 1000000⟩).record_usage
        "openai:gpt-4.1" ⟨1000000, [], 1000000⟩).total_cost = 20 ∧
    (tr.record_usage m u).total_tokens =
      ((tr.record_usage m u).model_usage.map fun kv =>
        kv.2.input_tokens + kv.2.output_tokens).sum ∧
    (tr.record_usage m u).total_cost =
      ((tr.record_usage m u).model_usage.map fun kv => kv.2.total_cost).sum ∧
    (tr.record_usage m u).total_requests =
      ((tr.record_usage m u).model_usage.map fun kv => kv.2.requests).sum := by
  have hlp : lookupPricing "openai:gpt-4.1" = ⟨2, 1/2, 8⟩ := rfl
  refine ⟨?_, ?_, hlp, ?_, ?_, ?_, rfl, rfl, rfl⟩
  · simp only [UsageTracker.record_usage, Option.map_some']
    congr 1
    push_cast
    ring
  · intro hnone
    unfold lookupPricing
    rw [hnone]
    rfl
  · simp only [UsageTracker.record_usage, Option.map_some', hlp, UsageTracker.init]
    norm_num
  · simp only [UsageTracker.record_usage, UsageTracker.init, UsageTracker.total_requests, hlp,
      updateModelUsage, ModelUsage.add_usage, ModelUsage.init]
    norm_num
  · simp only [UsageTracker.record_usage, UsageTracker.init, UsageTracker.total_cost, hlp,
      updateModelUsage, ModelUsage.add_usage, ModelUsage.init]
    norm_num

/-- Witness for C7: the unknown model id "m" falls back to the first
entry's pricing. -/
theorem c7_usage_math_witness :
    MODELS.lookup "m" = none ∧ lookupPricing "m" = firstModelInfo.pricing :=
  ⟨rfl, (c7_usage_math UsageTracker.init "m" ⟨0, [], 0⟩).2.1 rfl⟩

/-- C9: `/model 3` switches the active session model to the third entry of
the ordered model list and leaves the persisted configuration untouched,
while `/model 3 default` persists the third entry as `default_model` and
leaves the active session model (indeed the whole session) unchanged. -/
theorem c9_handle_model_third (st : AppState) :
    modelList.getD 2 "" = "anthropic:claude-3-7-sonnet-latest" ∧
    (handle_model st ["3"]).session =
      { st.session with current_model := modelList.getD 2 "" } ∧
    (handle_model st ["3"]).config = st.config ∧
    (handle_model st ["3", "default"]).config =
      configSet st.config "default_model" (modelList.getD 2 "") ∧
    (handle_model st ["3", "default"]).session = st.session := by
  exact ⟨rfl, rfl, rfl, rfl, rfl⟩

end Axon
